import Mathlib

/-!
Verification of the PDF-QA web front-end's client-side state logic.

This file shallowly embeds the parts of the code that the checked
properties are about: the streaming chat reducer (`src/hooks/useChat.ts`),
the API client's token store, 401 interceptor, streaming request and SSE
line parser (`src/hooks/api.ts`), and the document status poller
(`src/hooks/useDocuments.ts`).  TypeScript strings are modelled as Lean
`String`s, except in the SSE line splitter, where the buffer is a
`List Char` so that JavaScript's `split` on a newline can be mirrored
character by character.  Optional TypeScript fields become `Option`s and
thrown exceptions become `Except` values.
-/

namespace PdfQA

/-- Role of a chat message (`'user' | 'assistant' | 'system'` in `types.ts`). -/
inductive Role where
  | user
  | assistant
  | system
deriving DecidableEq, Repr

/-- A retrieval citation (`Citation` in `types.ts`).  The relevance score is a
numeric payload the client only carries around, so it is modelled opaquely
as an integer. -/
structure Citation where
  doc_id : String
  doc_name : String
  page : Nat
  score : Int
  excerpt : String
  char_start : Option Nat
  char_end : Option Nat
deriving DecidableEq, Repr

/-- A conversation turn (`ChatMessage` in `types.ts`). -/
structure ChatMessage where
  id : String
  role : Role
  content : String
  citations : Option (List Citation)
  timestamp : String
  loading : Option Bool
deriving DecidableEq, Repr

/-- An update record (`Partial<ChatMessage>` in `useChat.ts`): each present
field overrides the message's field when spread over it.  The code never
spreads an explicitly-undefined field, so a present field always carries a
value. -/
structure ChatMessagePatch where
  id : Option String
  role : Option Role
  content : Option String
  citations : Option (List Citation)
  timestamp : Option String
  loading : Option Bool
deriving DecidableEq, Repr

/-- Object spread `{ ...msg, ...updates }` from `updateMessage`. -/
def applyPatch (msg : ChatMessage) (updates : ChatMessagePatch) : ChatMessage :=
  { id := updates.id.getD msg.id
    role := updates.role.getD msg.role
    content := updates.content.getD msg.content
    citations := match updates.citations with
      | some c => some c
      | none => msg.citations
    timestamp := updates.timestamp.getD msg.timestamp
    loading := match updates.loading with
      | some b => some b
      | none => msg.loading }

/-- `addMessage` in `useChat.ts`: append the new message to the list (the
id/timestamp generation is passed in by the caller here). -/
def addMessage (messages : List ChatMessage) (newMessage : ChatMessage) : List ChatMessage :=
  messages ++ [newMessage]

/-- `updateMessage` in `useChat.ts`: map over the list, patching every
message whose id matches. -/
def updateMessage (messages : List ChatMessage) (messageId : String)
    (updates : ChatMessagePatch) : List ChatMessage :=
  messages.map fun msg => if msg.id == messageId then applyPatch msg updates else msg

/-- `removeMessage` in `useChat.ts`: keep the messages whose id differs. -/
def removeMessage (messages : List ChatMessage) (messageId : String) : List ChatMessage :=
  messages.filter fun msg => msg.id != messageId

/-- JavaScript's `a || b` for an optional string `a` and a fallback `b`:
the fallback is used when `a` is absent or empty (falsy). -/
def jsOr (a : Option String) (b : String) : String :=
  match a with
  | some s => if s == "" then b else s
  | none => b

/-- The observable state of the API client module (`api.ts`): the in-memory
`authToken` variable, the `auth_token` entry in `localStorage`, the axios
instance's default `Authorization` header, and the window location the
client last forced. -/
structure ApiClientState where
  authToken : Option String
  storedToken : Option String
  authHeader : Option String
  windowLocation : String
deriving DecidableEq, Repr

/-- `setAuthToken` in `api.ts`: a non-null token is written to all three
places (the header as a bearer string); a null token clears all three. -/
def setAuthToken (token : Option String) (s : ApiClientState) : ApiClientState :=
  match token with
  | some t =>
    { s with authToken := some t
             authHeader := some ("Bearer " ++ t)
             storedToken := some t }
  | none =>
    { s with authToken := none
             authHeader := none
             storedToken := none }

/-- The axios response interceptor's rejection branch in `api.ts`: when the
failed response carries status 401 the token is cleared and the window is
navigated to `/login`; any other failure leaves the client state alone.
`status` is `none` when the failure had no response (network error). -/
def interceptOnError (s : ApiClientState) (status : Option Nat) : ApiClientState :=
  if status == some 401 then
    { setAuthToken none s with windowLocation := "/login" }
  else s

/-- The observable part of a `fetch` response in `chatApi.askQuestion`:
the `ok` flag, the status code, the `detail` field of the decoded error
body, and whether a readable body is present. -/
structure FetchResponse where
  ok : Bool
  status : Nat
  errorDetail : Option String
  hasBody : Bool
deriving DecidableEq, Repr

/-- `chatApi.askQuestion` in `api.ts`, from the point the response is
available: a non-ok response throws the error body's detail (or a default),
a missing body throws, and otherwise the stream is handed back.  The client
state is returned unchanged in every branch: this path does not go through
the axios instance, so the 401 interceptor never runs here. -/
def chatAskQuestion (s : ApiClientState) (resp : FetchResponse) :
    ApiClientState × Except String Unit :=
  if resp.ok == false then
    (s, Except.error (jsOr resp.errorDetail "Failed to ask question"))
  else if resp.hasBody == false then
    (s, Except.error "No response body")
  else
    (s, Except.ok ())

/-- A decoded stream event (`StreamChunk` in `types.ts`), with the payload
field that its `type` discriminant selects. -/
inductive StreamEvent where
  | token (content : String)
  | citation (citation : Citation)
  | complete (answer : String) (citations : List Citation)
  | error (message : String)
deriving DecidableEq, Repr

/-- The patch `{ loading: false }` used on the first token. -/
def patchLoadingFalse : ChatMessagePatch :=
  ⟨none, none, none, none, none, some false⟩

/-- The patch `{ content: fullResponse }` used on each token. -/
def patchContent (c : String) : ChatMessagePatch :=
  ⟨none, none, some c, none, none, none⟩

/-- The patch `{ content, citations, loading: false }` used on `complete`. -/
def patchComplete (answer : String) (citations : List Citation) : ChatMessagePatch :=
  ⟨none, none, some answer, some citations, none, some false⟩

/-- The patch `{ content, loading: false }` used in the catch branch. -/
def patchCaught (c : String) : ChatMessagePatch :=
  ⟨none, none, some c, none, none, some false⟩

/-- The state of `askQuestion`'s streaming loop in `useChat.ts`, restricted
to the one placeholder assistant message the loop updates: the message
itself, the `fullResponse` accumulator, the accumulated `citations` array,
and the `isFirstToken` flag. -/
structure LoopState where
  msg : ChatMessage
  fullResponse : String
  citationsAcc : List Citation
  isFirstToken : Bool
deriving DecidableEq, Repr

/-- One iteration of the `for await` loop body in `askQuestion`: a token
with truthy (non-empty) content clears loading on the first occurrence and
appends to the accumulator and the message content; a citation is
accumulated; a `complete` event overwrites content and citations with the
final payload; an `error` event throws its message (or a default). -/
def applyChunk (s : LoopState) (chunk : StreamEvent) : Except String LoopState :=
  match chunk with
  | StreamEvent.token c =>
    if c != "" then
      let s1 := if s.isFirstToken then
          { s with msg := applyPatch s.msg patchLoadingFalse, isFirstToken := false }
        else s
      let fr := s1.fullResponse ++ c
      Except.ok { s1 with fullResponse := fr, msg := applyPatch s1.msg (patchContent fr) }
    else
      Except.ok s
  | StreamEvent.citation c =>
    Except.ok { s with citationsAcc := s.citationsAcc ++ [c] }
  | StreamEvent.complete answer citations =>
    Except.ok { s with msg := applyPatch s.msg (patchComplete answer citations) }
  | StreamEvent.error m =>
    Except.error (if m == "" then "Unknown error occurred" else m)

/-- Run the loop body over the events; on a throw, return the state at the
moment of the throw together with the thrown message. -/
def runEvents (s : LoopState) : List StreamEvent → LoopState × Option String
  | [] => (s, none)
  | chunk :: rest =>
    match applyChunk s chunk with
    | Except.ok s1 => runEvents s1 rest
    | Except.error m => (s, some m)

/-- `handleApiError` in `api.ts`, specialised to a thrown `Error`: the
error's message when truthy, a default otherwise. -/
def handleApiErrorDetail (m : String) : String :=
  if m == "" then "An unexpected error occurred" else m

/-- The catch branch of `askQuestion`: the assistant message gets an
apology string built from the error detail, and loading is cleared. -/
def catchUpdate (s : LoopState) (m : String) : LoopState :=
  { s with
    msg := applyPatch s.msg (patchCaught ("Sorry, I encountered an error: " ++ handleApiErrorDetail m)) }

/-- The whole event-consuming part of `askQuestion`: run the loop and, if
it threw, apply the catch branch to the state at the throw. -/
def runAskLoop (s : LoopState) (events : List StreamEvent) : LoopState :=
  match runEvents s events with
  | (s1, none) => s1
  | (s1, some m) => catchUpdate s1 m

/-- The placeholder assistant message `askQuestion` appends before
streaming: empty content, loading set. -/
def placeholderAssistant (aid now : String) : ChatMessage :=
  { id := aid, role := Role.assistant, content := "", citations := none
    timestamp := now, loading := some true }

/-- The loop state at the start of streaming for a fresh placeholder. -/
def initLoopState (aid now : String) : LoopState :=
  { msg := placeholderAssistant aid now, fullResponse := "", citationsAcc := []
    isFirstToken := true }

/-- JavaScript's `String.prototype.trim`: strip leading and trailing
whitespace from the string. -/
def jsTrim (s : String) : String :=
  String.mk (((s.data.dropWhile Char.isWhitespace).reverse.dropWhile Char.isWhitespace).reverse)

/-- The `/ask` request body (`QuestionRequest` in `types.ts`). -/
structure QuestionRequest where
  question : String
  doc_ids : Option (List String)
  k : Option Nat
deriving DecidableEq, Repr

/-- The synchronous front of `askQuestion` in `useChat.ts`: a question whose
trim is empty (falsy) returns immediately; otherwise a user message with the
question text and a loading placeholder assistant message are appended, and
a request is built whose `doc_ids` is the current selection when non-empty
and absent otherwise, with `k = 6`.  The generated ids and timestamp are
passed in.  Returns the new message list and the request issued, if any. -/
def askQuestionStart (question : String) (selectedDocs : List String)
    (messages : List ChatMessage) (uid aid now : String) :
    List ChatMessage × Option QuestionRequest :=
  if jsTrim question == "" then (messages, none)
  else
    let afterUser := addMessage messages
      { id := uid, role := Role.user, content := question, citations := none
        timestamp := now, loading := none }
    let afterAssistant := addMessage afterUser (placeholderAssistant aid now)
    (afterAssistant,
      some { question := question
             doc_ids := if selectedDocs.length > 0 then some selectedDocs else none
             k := some 6 })

/-- JavaScript's `Array.findIndex` with an index-aware callback, returning
the found element together with its index (the source looks the element up
by the returned index right after). -/
def findWithIndex (q : Nat → ChatMessage → Bool) :
    Nat → List ChatMessage → Option (Nat × ChatMessage)
  | _, [] => none
  | i, m :: rest => if q i m then some (i, m) else findWithIndex q (i + 1) rest

/-- `retryQuestion` in `useChat.ts`: find the message with the given id;
when it is a user message, find the first assistant message at an index
greater than the user message's index, remove it by id if present, and
resubmit the user message's content.  Returns the message list after the
removal and the resubmitted question text, if any. -/
def retryQuestion (messages : List ChatMessage) (messageId : String) :
    List ChatMessage × Option String :=
  match messages.find? (fun m => m.id == messageId) with
  | some message =>
    if message.role == Role.user then
      let userIdx := messages.findIdx (fun m => m.id == messageId)
      let afterRemoval :=
        match findWithIndex
            (fun i m => decide (userIdx < i) && m.role == Role.assistant) 0 messages with
        | some (_, assistantMessage) => removeMessage messages assistantMessage.id
        | none => messages
      (afterRemoval, some message.content)
    else (messages, none)
  | none => (messages, none)

/-- A document record (`Document` in `types.ts`), restricted to the fields
the poller reads and writes. -/
structure Document where
  id : String
  name : String
  status : String
  error : Option String
deriving DecidableEq, Repr

/-- How a polling run ends: either the document is marked with a status and
an error string (the `updateDocumentStatus` call with a literal patch), or
a terminal status document was received and written through. -/
inductive PollEnd where
  | marked (status : String) (error : String)
  | finished (d : Document)
deriving DecidableEq, Repr

/-- `maxAttempts` in `pollDocumentStatus`. -/
def maxAttempts : Nat := 60

/-- The recursive `poll` closure in `pollDocumentStatus`.  `getStatus n` is
the outcome of the `n`-th status request (`none` when the request throws).
The second argument is the `attempts` counter; the third is the remaining
budget `maxAttempts - attempts`, which the source tests via
`attempts >= maxAttempts` before each request.  Returns how the run ends
and how many status requests were made. -/
def pollAux (getStatus : Nat → Option Document) : Nat → Nat → PollEnd × Nat
  | _, 0 => (PollEnd.marked "failed" "Processing timeout", 0)
  | attempts, fuel + 1 =>
    match getStatus attempts with
    | none => (PollEnd.marked "failed" "Status check failed", 1)
    | some d =>
      if d.status == "processing" then
        let r := pollAux getStatus (attempts + 1) fuel
        (r.1, r.2 + 1)
      else (PollEnd.finished d, 1)

/-- `pollDocumentStatus` in `useDocuments.ts`: start polling with a fresh
attempts counter and the full budget. -/
def pollDocumentStatus (getStatus : Nat → Option Document) : PollEnd × Nat :=
  pollAux getStatus 0 maxAttempts

/-- JavaScript's `buffer.split('\n')` on a character list: the segments
between newlines, always at least one (possibly empty) segment. -/
def splitNl : List Char → List (List Char)
  | [] => [[]]
  | c :: rest =>
    if c == '\n' then [] :: splitNl rest
    else
      match splitNl rest with
      | [] => [[c]]
      | l :: ls => (c :: l) :: ls

/-- The `'data: '` marker an SSE line must start with. -/
def dataMarker : List Char := "data: ".toList

/-- One line's treatment in `parseStreamingResponse`: a line starting with
`'data: '` has its remainder JSON-decoded and yielded on success; a decode
failure is logged and yields nothing; other lines yield nothing.  `J`
abstracts `JSON.parse` (returning `none` when it throws). -/
def decodeLine {α : Type} (J : List Char → Option α) (line : List Char) : Option α :=
  if dataMarker.isPrefixOf line then J (line.drop 6) else none

/-- The read loop of `chatApi.parseStreamingResponse` over decoded text
chunks: each chunk is appended to the buffer, the buffer is split on
newlines, the last (unterminated) segment becomes the new buffer, and the
remaining complete lines are decoded and yielded in order.  At end of
stream the leftover buffer is discarded. -/
def processStream {α : Type} (J : List Char → Option α) :
    List Char → List (List Char) → List α
  | _, [] => []
  | buffer, chunk :: rest =>
    (splitNl (buffer ++ chunk)).dropLast.filterMap (decodeLine J) ++
      processStream J ((splitNl (buffer ++ chunk)).getLastD []) rest

/-- `chatApi.parseStreamingResponse` in `api.ts`: the whole generator, with
an initially empty buffer. -/
def parseStreamingResponse {α : Type} (J : List Char → Option α)
    (chunks : List (List Char)) : List α :=
  processStream J [] chunks

/-- Spec-side description for the stream parser: the complete lines of the
whole stream, i.e. the newline-terminated segments of the concatenation of
all chunks, in order. -/
def completeLines (s : List Char) : List (List Char) :=
  (splitNl s).dropLast

/-- Spec-side description for the token-concatenation property: the
concatenation of the token contents in arrival order. -/
def concatContents : List String → String
  | [] => ""
  | c :: rest => c ++ concatContents rest

/-- Spec-side classifier for the amended loading-flag property: the events
whose processing clears the placeholder's loading flag are tokens with
non-empty content, `complete` events, and `error` events. -/
def isClearingEvent : StreamEvent → Bool
  | StreamEvent.token c => c != ""
  | StreamEvent.citation _ => false
  | StreamEvent.complete _ _ => true
  | StreamEvent.error _ => true

/-- Prepend a leftover segment to the first segment of a split (used to
state how `splitNl` distributes over concatenation). -/
def consHead (p : List Char) : List (List Char) → List (List Char)
  | [] => [p]
  | h :: t => (p ++ h) :: t

/-- A sample user message. -/
def sampleUser : ChatMessage :=
  ⟨"1", Role.user, "what is RAG?", none, "t0", none⟩

/-- A sample assistant message. -/
def sampleAssistant : ChatMessage :=
  ⟨"2", Role.assistant, "first answer", none, "t1", none⟩

/-- A second assistant message that shares `sampleAssistant`'s id. -/
def sampleAssistantDup : ChatMessage :=
  ⟨"2", Role.assistant, "second answer", none, "t2", none⟩

/-- A sample update record setting content and clearing loading. -/
def samplePatch : ChatMessagePatch :=
  ⟨none, none, some "patched", none, none, some false⟩

/-- A sample client state holding a token, as after a login. -/
def sampleClientState : ApiClientState :=
  ⟨some "tok", some "tok", some "Bearer tok", "/chat"⟩

/-- A sample non-ok `fetch` response with status 401. -/
def sample401Response : FetchResponse :=
  ⟨false, 401, some "Unauthorized", true⟩

/-- A sample document that is still processing. -/
def sampleProcessingDoc : Document :=
  ⟨"d1", "report.pdf", "processing", none⟩

/-- Stepping the loop past an event whose processing succeeds. -/
theorem runAskLoop_cons_ok {s s1 : LoopState} {e : StreamEvent}
    (es : List StreamEvent) (h : applyChunk s e = Except.ok s1) :
    runAskLoop s (e :: es) = runAskLoop s1 es := by
  simp [runAskLoop, runEvents, h]

/-- Stepping the loop into an event whose processing throws. -/
theorem runAskLoop_cons_err {s : LoopState} {e : StreamEvent} {m : String}
    (es : List StreamEvent) (h : applyChunk s e = Except.error m) :
    runAskLoop s (e :: es) = catchUpdate s m := by
  simp [runAskLoop, runEvents, h]

/-- Processing a token with non-empty content succeeds, and afterwards the
accumulator and the message content both equal the old accumulator with the
content appended. -/
theorem applyChunk_token_ne {s : LoopState} {c : String} (hc : c ≠ "") :
    ∃ s2, applyChunk s (StreamEvent.token c) = Except.ok s2 ∧
      s2.fullResponse = s.fullResponse ++ c ∧
      s2.msg.content = s.fullResponse ++ c ∧
      (s.isFirstToken = true → s2.msg.loading = some false) := by
  have hb : (c != "") = true := bne_iff_ne.mpr hc
  by_cases hf : s.isFirstToken
  · refine ⟨⟨applyPatch (applyPatch s.msg patchLoadingFalse) (patchContent (s.fullResponse ++ c)),
      s.fullResponse ++ c, s.citationsAcc, false⟩, ?_, rfl, rfl, fun _ => rfl⟩
    simp [applyChunk, hb, hf]
  · refine ⟨⟨applyPatch s.msg (patchContent (s.fullResponse ++ c)),
      s.fullResponse ++ c, s.citationsAcc, s.isFirstToken⟩,
      ?_, rfl, rfl, fun h => absurd h hf⟩
    simp [applyChunk, hb, hf]

/-- Running the loop over token events only appends the concatenation of
their contents to the message content, as long as the accumulator and the
content agree (as they do for a fresh placeholder). -/
theorem runAskLoop_tokens_concat (ts : List String) :
    ∀ s : LoopState, s.fullResponse = s.msg.content →
    (runAskLoop s (ts.map StreamEvent.token)).msg.content =
      s.msg.content ++ concatContents ts := by
  induction ts with
  | nil =>
    intro s _
    simp [runAskLoop, runEvents, concatContents, String.append_empty]
  | cons c rest ih =>
    intro s hs
    by_cases hc : c = ""
    · subst hc
      have hok : applyChunk s (StreamEvent.token "") = Except.ok s := by
        simp [applyChunk]
      rw [List.map_cons, runAskLoop_cons_ok _ hok, ih s hs]
      simp [concatContents, String.empty_append]
    · obtain ⟨s2, hok, hfr, hct, _⟩ := applyChunk_token_ne (s := s) hc
      rw [List.map_cons, runAskLoop_cons_ok _ hok, ih s2 (by rw [hfr, hct])]
      rw [hct, hs, concatContents]
      exact String.append_assoc _ _ _

/-- C1: applying a sequence of `token` events to a fresh placeholder
assistant message leaves its text content equal to the concatenation of the
token contents in arrival order.  (A token with empty content is skipped by
the code's truthiness guard, which contributes exactly the empty string to
the concatenation.) -/
theorem c1_token_concat (aid now : String) (ts : List String) :
    (runAskLoop (initLoopState aid now) (ts.map StreamEvent.token)).msg.content =
      concatContents ts := by
  rw [runAskLoop_tokens_concat ts (initLoopState aid now) rfl]
  exact String.empty_append _

/-- A successful loop step never turns the loading flag back on. -/
theorem applyChunk_ok_loading {s s1 : LoopState} {e : StreamEvent}
    (hok : applyChunk s e = Except.ok s1) (h : s.msg.loading = some false) :
    s1.msg.loading = some false := by
  cases e with
  | token c =>
    by_cases hc : c = ""
    · subst hc
      simp [applyChunk] at hok
      rw [← hok]
      exact h
    · by_cases hf : s.isFirstToken
      all_goals simp [applyChunk, hc, hf, applyPatch, patchLoadingFalse, patchContent] at hok
      all_goals rw [← hok]
      all_goals simp [h]
  | citation c =>
    simp [applyChunk] at hok
    rw [← hok]
    exact h
  | complete a cl =>
    simp [applyChunk, applyPatch, patchComplete] at hok
    rw [← hok]
  | error m =>
    simp [applyChunk] at hok

/-- Once the loading flag is off, running any further events through the
loop body keeps it off. -/
theorem runEvents_loading_mono (es : List StreamEvent) :
    ∀ s : LoopState, s.msg.loading = some false →
    ((runEvents s es).1).msg.loading = some false := by
  induction es with
  | nil => intro s h; exact h
  | cons e rest ih =>
    intro s h
    cases hap : applyChunk s e with
    | ok s1 =>
      simpa [runEvents, hap] using ih s1 (applyChunk_ok_loading hap h)
    | error m =>
      simpa [runEvents, hap] using h

/-- Once the loading flag is off, the whole loop (catch branch included)
keeps it off. -/
theorem runAskLoop_loading_mono (es : List StreamEvent) (s : LoopState)
    (h : s.msg.loading = some false) :
    (runAskLoop s es).msg.loading = some false := by
  have hm := runEvents_loading_mono es s h
  unfold runAskLoop
  cases hr : runEvents s es with
  | mk s1 om =>
    rw [hr] at hm
    cases om with
    | none => exact hm
    | some m => simp [catchUpdate, applyPatch, patchCaught]

/-- Trajectory of the loading flag: starting from a fresh placeholder, the
flag is on exactly as long as no clearing event (a token with non-empty
content, a `complete`, or an `error`) has been processed. -/
theorem runAskLoop_loading_trajectory (es : List StreamEvent) :
    ∀ s : LoopState, s.msg.loading = some true → s.isFirstToken = true →
    (runAskLoop s es).msg.loading = some (!(es.any isClearingEvent)) := by
  induction es with
  | nil =>
    intro s h1 _
    simpa [runAskLoop, runEvents] using h1
  | cons e rest ih =>
    intro s h1 h2
    cases e with
    | token c =>
      by_cases hc : c = ""
      · subst hc
        have hok : applyChunk s (StreamEvent.token "") = Except.ok s := by
          simp [applyChunk]
        rw [runAskLoop_cons_ok _ hok]
        simpa [isClearingEvent] using ih s h1 h2
      · obtain ⟨s2, hok, _, _, hld⟩ := applyChunk_token_ne (s := s) hc
        rw [runAskLoop_cons_ok _ hok]
        have hb : (c != "") = true := bne_iff_ne.mpr hc
        have := runAskLoop_loading_mono rest s2 (hld h2)
        simpa [isClearingEvent, hb] using this
    | citation c =>
      have hok : applyChunk s (StreamEvent.citation c) =
          Except.ok { s with citationsAcc := s.citationsAcc ++ [c] } := rfl
      rw [runAskLoop_cons_ok _ hok]
      simpa [isClearingEvent]
        using ih { s with citationsAcc := s.citationsAcc ++ [c] } h1 h2
    | complete a cl =>
      have hok : applyChunk s (StreamEvent.complete a cl) =
          Except.ok { s with msg := applyPatch s.msg (patchComplete a cl) } := rfl
      rw [runAskLoop_cons_ok _ hok]
      have := runAskLoop_loading_mono rest
        { s with msg := applyPatch s.msg (patchComplete a cl) } rfl
      simpa [isClearingEvent] using this
    | error m =>
      have herr : applyChunk s (StreamEvent.error m) =
          Except.error (if m == "" then "Unknown error occurred" else m) := rfl
      rw [runAskLoop_cons_err _ herr]
      simp [isClearingEvent, catchUpdate, applyPatch, patchCaught]

/-- C4 counterexample: a `token` event whose content is empty is the first
event of the stream, yet after it is processed the placeholder's loading
flag is still true — the code's truthiness guard skips it — contradicting
the claim that the flag turns false on the first `token`, `complete`, or
`error` event. -/
theorem c4_counterexample_empty_token_keeps_loading :
    (runAskLoop (initLoopState "2" "t0") [StreamEvent.token ""]).msg.loading = some true := rfl

/-- C4 amended: for every event sequence applied to a fresh placeholder,
the loading flag is true exactly until the first token with non-empty
content, `complete`, or `error` event, whichever occurs first, and false
from then on; in particular it never returns to true.  (Applied to every
prefix of a stream, this gives the full trajectory of the flag.) -/
theorem c4_amended_loading_single_transition (aid now : String)
    (events : List StreamEvent) :
    (runAskLoop (initLoopState aid now) events).msg.loading =
      some (!(events.any isClearingEvent)) :=
  runAskLoop_loading_trajectory events (initLoopState aid now) rfl rfl

/-- `splitNl` never returns an empty list of segments. -/
theorem splitNl_ne_nil : ∀ l : List Char, splitNl l ≠ [] := by
  intro l
  induction l with
  | nil => simp [splitNl]
  | cons c rest ih =>
    rw [splitNl]
    by_cases hc : c = '\n'
    · simp [hc]
    · have hb : (c == '\n') = false := beq_eq_false_iff_ne.mpr hc
      rw [if_neg (by simp [hb])]
      cases hsp : splitNl rest with
      | nil => exact absurd hsp ih
      | cons h t => simp

/-- Splitting after a leading newline. -/
theorem splitNl_cons_nl (l : List Char) : splitNl ('\n' :: l) = [] :: splitNl l := by
  rw [splitNl]
  simp

/-- Splitting after a leading non-newline character prepends it to the
first segment. -/
theorem splitNl_cons_ne {c : Char} (hc : c ≠ '\n') {l : List Char}
    {h : List Char} {t : List (List Char)} (hsp : splitNl l = h :: t) :
    splitNl (c :: l) = (c :: h) :: t := by
  have hb : (c == '\n') = false := beq_eq_false_iff_ne.mpr hc
  rw [splitNl, if_neg (by simp [hb]), hsp]

/-- How `splitNl` distributes over concatenation: the complete segments of
the left part, then the left part's trailing segment merged into the
split of the right part. -/
theorem splitNl_append : ∀ (x y : List Char),
    splitNl (x ++ y) =
      (splitNl x).dropLast ++ consHead ((splitNl x).getLastD []) (splitNl y) := by
  intro x
  induction x with
  | nil =>
    intro y
    cases hsp : splitNl y with
    | nil => exact absurd hsp (splitNl_ne_nil y)
    | cons h t => simp [splitNl, consHead, hsp]
  | cons c rest ih =>
    intro y
    cases hsp : splitNl rest with
    | nil => exact absurd hsp (splitNl_ne_nil rest)
    | cons h t =>
      by_cases hc : c = '\n'
      · subst hc
        rw [List.cons_append, splitNl_cons_nl, splitNl_cons_nl, ih y, hsp]
        simp [List.getLastD]
      · cases hspy : splitNl (rest ++ y) with
        | nil => exact absurd hspy (splitNl_ne_nil _)
        | cons h2 t2 =>
          rw [List.cons_append, splitNl_cons_ne hc hspy, splitNl_cons_ne hc hsp]
          rw [ih y, hsp] at hspy
          cases t with
          | nil =>
            cases hspy2 : splitNl y with
            | nil => exact absurd hspy2 (splitNl_ne_nil y)
            | cons hy ty =>
              rw [hspy2] at hspy
              simp [consHead] at hspy ⊢
              exact ⟨by rw [← hspy.1], hspy.2.symm⟩
          | cons t1 ts =>
            simp [consHead, List.getLastD] at hspy ⊢
            refine ⟨by rw [← hspy.1], by rw [← hspy.2]⟩

/-- The trailing segment of a split never contains a newline. -/
theorem splitNl_getLastD_no_nl : ∀ l : List Char, '\n' ∉ (splitNl l).getLastD [] := by
  intro l
  induction l with
  | nil => simp [splitNl]
  | cons c rest ih =>
    cases hsp : splitNl rest with
    | nil => exact absurd hsp (splitNl_ne_nil rest)
    | cons h t =>
      by_cases hc : c = '\n'
      · subst hc
        rw [splitNl_cons_nl, hsp]
        rw [hsp] at ih
        simpa [List.getLastD] using ih
      · rw [splitNl_cons_ne hc hsp]
        rw [hsp] at ih
        cases t with
        | nil =>
          simp only [List.getLastD] at ih ⊢
          intro hmem
          cases hmem with
          | head => exact hc rfl
          | tail _ hmem2 => exact ih hmem2
        | cons t1 ts =>
          simpa [List.getLastD] using ih

/-- A newline-free buffer splits into itself as a single segment. -/
theorem splitNl_of_no_nl : ∀ b : List Char, '\n' ∉ b → splitNl b = [b] := by
  intro b
  induction b with
  | nil => intro _; rfl
  | cons c rest ih =>
    intro h
    have hc : c ≠ '\n' := fun hcontra => h (hcontra ▸ List.mem_cons_self c rest)
    have hrest : '\n' ∉ rest := fun hmem => h (List.mem_cons_of_mem c hmem)
    rw [splitNl_cons_ne hc (ih hrest)]

/-- The chunked read loop emits exactly the decodings of the complete lines
of the concatenated stream, whatever newline-free buffer it starts from. -/
theorem processStream_eq {α : Type} (J : List Char → Option α) :
    ∀ (chunks : List (List Char)) (buffer : List Char), '\n' ∉ buffer →
    processStream J buffer chunks =
      ((splitNl (buffer ++ chunks.flatten)).dropLast).filterMap (decodeLine J) := by
  intro chunks
  induction chunks with
  | nil =>
    intro b hb
    simp [processStream, splitNl_of_no_nl b hb]
  | cons c cs ih =>
    intro b hb
    have hb' := splitNl_getLastD_no_nl (b ++ c)
    have e1 : b ++ (c :: cs).flatten = (b ++ c) ++ cs.flatten := by
      simp [List.append_assoc]
    have e3 : splitNl (((splitNl (b ++ c)).getLastD []) ++ cs.flatten) =
        consHead ((splitNl (b ++ c)).getLastD []) (splitNl cs.flatten) := by
      rw [splitNl_append, splitNl_of_no_nl _ hb']
      simp [List.getLastD]
    have e2 : splitNl (b ++ (c :: cs).flatten) =
        (splitNl (b ++ c)).dropLast ++
          splitNl (((splitNl (b ++ c)).getLastD []) ++ cs.flatten) := by
      rw [e1, splitNl_append (b ++ c) cs.flatten, e3]
    rw [processStream, ih ((splitNl (b ++ c)).getLastD []) hb', e2]
    rw [List.dropLast_append_of_ne_nil _ (splitNl_ne_nil _), List.filterMap_append]

/-- Membership from an index lookup. -/
theorem mem_of_getElem?_eq_some {α : Type} {l : List α} {k : Nat} {a : α}
    (h : l[k]? = some a) : a ∈ l := by
  have hk := (List.getElem?_eq_some_iff.mp h).1
  have hv : l[k] = a := by
    rw [List.getElem?_eq_getElem hk] at h
    exact Option.some.inj h
  exact hv ▸ List.getElem_mem hk

/-- What a successful `findWithIndex` search means: the returned index is
past the start, the returned element sits at that index, it satisfies the
predicate, and no earlier in-range index does. -/
theorem findWithIndex_spec (q : Nat → ChatMessage → Bool) :
    ∀ (ms : List ChatMessage) (i k : Nat) (am : ChatMessage),
    findWithIndex q i ms = some (k, am) →
    i ≤ k ∧ ms[k - i]? = some am ∧ q k am = true ∧
    (∀ j, i ≤ j → j < k → ∀ m, ms[j - i]? = some m → q j m = false) := by
  intro ms
  induction ms with
  | nil => intro i k am h; simp [findWithIndex] at h
  | cons x rest ih =>
    intro i k am h
    by_cases hq : q i x
    · rw [findWithIndex, if_pos hq] at h
      obtain ⟨hk, ham⟩ : i = k ∧ x = am := by
        have := Option.some.inj h
        exact ⟨congrArg Prod.fst this, congrArg Prod.snd this⟩
      subst hk
      subst ham
      refine ⟨Nat.le_refl i, by simp, hq, ?_⟩
      intro j h1 h2 m _
      exact absurd (Nat.lt_of_le_of_lt h1 h2) (Nat.lt_irrefl i)
    · rw [findWithIndex, if_neg hq] at h
      obtain ⟨h1, h2, h3, h4⟩ := ih (i + 1) k am h
      have hik : i ≤ k := Nat.le_of_succ_le h1
      have hsub : k - i = (k - (i + 1)) + 1 := by omega
      refine ⟨hik, by rw [hsub]; simpa using h2, h3, ?_⟩
      intro j hj1 hj2 m hm
      by_cases hji : j = i
      · subst hji
        have : m = x := by
          rw [Nat.sub_self] at hm
          simpa using hm.symm
        rw [this]
        exact Bool.eq_false_iff.mpr hq
      · have hj1' : i + 1 ≤ j := by omega
        have hjsub : j - i = (j - (i + 1)) + 1 := by omega
        rw [hjsub] at hm
        exact h4 j hj1' hj2 m (by simpa using hm)

/-- The element `find?` returns sits at the index `findIdx` returns. -/
theorem find?_getElem_findIdx (p : ChatMessage → Bool) :
    ∀ (l : List ChatMessage) (a : ChatMessage),
    l.find? p = some a → l[l.findIdx p]? = some a := by
  intro l
  induction l with
  | nil => intro a h; simp at h
  | cons x rest ih =>
    intro a h
    by_cases hp : p x
    · rw [List.find?_cons_of_pos _ hp] at h
      rw [List.findIdx_cons, hp]
      simpa using h
    · rw [List.find?_cons_of_neg _ hp] at h
      rw [List.findIdx_cons, Bool.eq_false_iff.mpr hp]
      simpa using ih a h

/-- When the message ids are pairwise distinct, removing by the id of the
element at an index is exactly erasing that index. -/
theorem filter_ne_eraseIdx :
    ∀ (ms : List ChatMessage) (k : Nat) (am : ChatMessage),
    (ms.map (fun m => m.id)).Nodup → ms[k]? = some am →
    (ms.filter fun m => m.id != am.id) = ms.eraseIdx k := by
  intro ms
  induction ms with
  | nil => intro k am _ h; simp at h
  | cons x rest ih =>
    intro k am hnd hk
    rw [List.map_cons, List.nodup_cons] at hnd
    cases k with
    | zero =>
      have hx : x = am := by simpa using hk
      subst hx
      rw [List.filter_cons]
      have hself : (x.id != x.id) = false := by simp
      rw [hself]
      simp only [List.eraseIdx]
      refine List.filter_eq_self.mpr ?_
      intro m hm
      refine bne_iff_ne.mpr ?_
      intro hcontra
      exact hnd.1 (hcontra ▸ List.mem_map_of_mem (fun m2 => m2.id) hm)
    | succ k1 =>
      have hk1 : rest[k1]? = some am := by simpa using hk
      have ham : am ∈ rest := mem_of_getElem?_eq_some hk1
      have hne : (x.id != am.id) = true := by
        refine bne_iff_ne.mpr ?_
        intro hcontra
        exact hnd.1 (hcontra ▸ List.mem_map_of_mem (fun m2 => m2.id) ham)
      rw [List.filter_cons, hne]
      simp only [List.eraseIdx]
      rw [ih k1 am hnd.2 hk1]
      simp

/-- C3 counterexample: when the two assistant messages after the user
message share an id (as `Date.now()`-based ids can), retry removes both of
them — `removeMessage` filters by id — so it does not remove exactly one
assistant message: a three-message list shrinks to one message. -/
theorem c3_counterexample_duplicate_ids :
    ([sampleUser, sampleAssistant, sampleAssistantDup] : List ChatMessage).length = 3 ∧
    (retryQuestion [sampleUser, sampleAssistant, sampleAssistantDup] "1").1.length = 1 ∧
    (retryQuestion [sampleUser, sampleAssistant, sampleAssistantDup] "1").2 =
      some sampleUser.content := by
  refine ⟨rfl, ?_, rfl⟩
  decide

/-- C3 amended: when message ids are pairwise distinct, the given id
belongs to a user message, and some assistant message occurs after it,
`retryQuestion` removes exactly that one message — the first assistant
message at an index greater than the user message's index — and resubmits
exactly the user message's content.  (When no assistant message follows,
the code removes nothing but still resubmits.) -/
theorem c3_amended_retry (ms : List ChatMessage) (mid : String) (um : ChatMessage)
    (k : Nat) (am : ChatMessage)
    (hnd : (ms.map (fun m => m.id)).Nodup)
    (hfind : ms.find? (fun m => m.id == mid) = some um)
    (hrole : um.role = Role.user)
    (hassist : findWithIndex
      (fun i m => decide (ms.findIdx (fun m2 => m2.id == mid) < i) && m.role == Role.assistant)
      0 ms = some (k, am)) :
    (retryQuestion ms mid).1 = ms.eraseIdx k ∧
    (retryQuestion ms mid).1.length + 1 = ms.length ∧
    ms[k]? = some am ∧
    am.role = Role.assistant ∧
    ms.findIdx (fun m => m.id == mid) < k ∧
    (∀ j, ms.findIdx (fun m => m.id == mid) < j → j < k →
      ∀ m, ms[j]? = some m → ¬(m.role = Role.assistant)) ∧
    (retryQuestion ms mid).2 = some um.content := by
  obtain ⟨-, hget, hq, hmin⟩ := findWithIndex_spec _ ms 0 k am hassist
  rw [Nat.sub_zero] at hget
  obtain ⟨hqlt, hqrole⟩ :
      decide (ms.findIdx (fun m2 => m2.id == mid) < k) = true ∧
        (am.role == Role.assistant) = true := by
    simpa using hq
  have hlt : ms.findIdx (fun m2 => m2.id == mid) < k := of_decide_eq_true hqlt
  have hamrole : am.role = Role.assistant := by simpa using hqrole
  have hrole' : (um.role == Role.user) = true := by rw [hrole]; rfl
  have hretry : retryQuestion ms mid = (removeMessage ms am.id, some um.content) := by
    rw [retryQuestion, hfind]
    simp only [hrole', if_true, hassist]
  have hremove : removeMessage ms am.id = ms.eraseIdx k :=
    filter_ne_eraseIdx ms k am hnd hget
  have hklen : k < ms.length := (List.getElem?_eq_some_iff.mp hget).1
  refine ⟨by rw [hretry, hremove], ?_, hget, hamrole, hlt, ?_, by rw [hretry]⟩
  · rw [hretry, hremove]
    simp only [List.length_eraseIdx, hklen, if_true]
    omega
  · intro j hj1 hj2 m hm
    have := hmin j (Nat.zero_le j) hj2 m (by rw [Nat.sub_zero]; exact hm)
    intro hcontra
    rw [decide_eq_true hj1] at this
    have : (m.role == Role.assistant) = false := by simpa using this
    rw [hcontra] at this
    simp at this

/-- Witness for the amended C3 on a concrete user-then-assistant list: the
assistant turn at index 1 is removed and the question is resubmitted. -/
theorem c3_amended_retry_witness :
    (retryQuestion [sampleUser, sampleAssistant] "1").1 =
      ([sampleUser, sampleAssistant] : List ChatMessage).eraseIdx 1 ∧
    (retryQuestion [sampleUser, sampleAssistant] "1").2 = some sampleUser.content := by
  exact ⟨(c3_amended_retry [sampleUser, sampleAssistant] "1" sampleUser 1 sampleAssistant
      (by decide) (by decide) rfl (by decide)).1,
    (c3_amended_retry [sampleUser, sampleAssistant] "1" sampleUser 1 sampleAssistant
      (by decide) (by decide) rfl (by decide)).2.2.2.2.2.2⟩

/-- The poller never makes more status requests than its remaining budget. -/
theorem pollAux_count_le (getStatus : Nat → Option Document) :
    ∀ (fuel attempts : Nat), (pollAux getStatus attempts fuel).2 ≤ fuel := by
  intro fuel
  induction fuel with
  | zero => intro attempts; simp [pollAux]
  | succ n ih =>
    intro attempts
    cases hg : getStatus attempts with
    | none => simp [pollAux, hg]
    | some d =>
      by_cases hd : d.status == "processing"
      · simpa [pollAux, hg, hd] using ih (attempts + 1)
      · simp [pollAux, hg, hd]

/-- When every status request answers with a still-processing document, the
poller exhausts its whole budget and marks the document failed with the
timeout error. -/
theorem pollAux_all_processing (getStatus : Nat → Option Document)
    (hg : ∀ n, ∃ d, getStatus n = some d ∧ d.status = "processing") :
    ∀ (fuel attempts : Nat),
    pollAux getStatus attempts fuel = (PollEnd.marked "failed" "Processing timeout", fuel) := by
  intro fuel
  induction fuel with
  | zero => intro attempts; rfl
  | succ n ih =>
    intro attempts
    obtain ⟨d, hd, hst⟩ := hg attempts
    simp [pollAux, hd, hst, ih (attempts + 1)]

/-- When the first deviation from a still-processing answer is a request
failure inside the budget, the poller marks the document failed with the
status-check error. -/
theorem pollAux_request_failure (getStatus : Nat → Option Document) :
    ∀ (fuel attempts k : Nat), getStatus (attempts + k) = none →
    (∀ j, j < k → ∃ d, getStatus (attempts + j) = some d ∧ d.status = "processing") →
    k < fuel →
    (pollAux getStatus attempts fuel).1 = PollEnd.marked "failed" "Status check failed" := by
  intro fuel
  induction fuel with
  | zero => intro attempts k _ _ hk; exact absurd hk (Nat.not_lt_zero k)
  | succ n ih =>
    intro attempts k hnone hproc hk
    cases k with
    | zero => simp [pollAux] at hnone ⊢; simp [hnone]
    | succ k1 =>
      obtain ⟨d, hd, hst⟩ := hproc 0 (Nat.succ_pos k1)
      rw [Nat.add_zero] at hd
      have hrec := ih (attempts + 1) k1 (by rw [Nat.add_right_comm]; exact hnone)
        (fun j hj => by rw [Nat.add_right_comm]; exact hproc (j + 1) (Nat.succ_lt_succ hj))
        (Nat.lt_of_succ_lt_succ hk)
      simp [pollAux, hd, hst, hrec]

/-- C7: the polling loop makes at most 60 status attempts; a backend that
never leaves "processing" exhausts exactly 60 attempts and the document is
marked failed with the timeout error string; and a status request that
fails (after any run of still-processing answers inside the budget) marks
the document failed with the status-check error string. -/
theorem c7_poll_bounded (getStatus : Nat → Option Document) :
    (pollDocumentStatus getStatus).2 ≤ 60 ∧
    ((∀ n, ∃ d, getStatus n = some d ∧ d.status = "processing") →
      pollDocumentStatus getStatus = (PollEnd.marked "failed" "Processing timeout", 60)) ∧
    (∀ k, getStatus k = none →
      (∀ j, j < k → ∃ d, getStatus j = some d ∧ d.status = "processing") →
      k < 60 →
      (pollDocumentStatus getStatus).1 = PollEnd.marked "failed" "Status check failed") := by
  refine ⟨pollAux_count_le getStatus 60 0, ?_, ?_⟩
  · intro hg
    exact pollAux_all_processing getStatus hg 60 0
  · intro k hnone hproc hk
    exact pollAux_request_failure getStatus 60 0 k (by simpa using hnone)
      (fun j hj => by simpa using hproc j hj) hk

/-- Witness for C7: a backend that always answers "processing" makes the
poller time out after exactly 60 attempts. -/
theorem c7_poll_bounded_witness :
    (pollDocumentStatus (fun _ => some sampleProcessingDoc)).2 ≤ 60 ∧
    pollDocumentStatus (fun _ => some sampleProcessingDoc) =
      (PollEnd.marked "failed" "Processing timeout", 60) := by
  exact ⟨(c7_poll_bounded (fun _ => some sampleProcessingDoc)).1,
    (c7_poll_bounded (fun _ => some sampleProcessingDoc)).2.1
      (fun _ => ⟨sampleProcessingDoc, rfl, rfl⟩)⟩

/-- C9: after `setAuthToken token`, the in-memory token, the durable-storage
entry and the default authorization header agree: all three carry the token
(the header as its bearer string) when it is non-null, and all three are
cleared when it is null. -/
theorem c9_set_auth_token_agreement (token : Option String) (s : ApiClientState) :
    (setAuthToken token s).authToken = token ∧
    (setAuthToken token s).storedToken = token ∧
    (setAuthToken token s).authHeader = token.map (fun v => "Bearer " ++ v) := by
  cases token <;> simp [setAuthToken]

/-- C10: `updateMessage` preserves the length and order of the message list,
leaves every position holding a message with a different id unchanged, and
patches every position holding a message with the given id; `removeMessage`
keeps exactly the messages whose id differs, in their original relative
order (a sublist of the input). -/
theorem c10_update_remove_frame (ms : List ChatMessage) (mid : String)
    (u : ChatMessagePatch) :
    (updateMessage ms mid u).length = ms.length ∧
    (∀ (k : Nat) (m : ChatMessage), ms[k]? = some m → m.id ≠ mid →
      (updateMessage ms mid u)[k]? = some m) ∧
    (∀ (k : Nat) (m : ChatMessage), ms[k]? = some m → m.id = mid →
      (updateMessage ms mid u)[k]? = some (applyPatch m u)) ∧
    List.Sublist (removeMessage ms mid) ms ∧
    (∀ m, m ∈ removeMessage ms mid ↔ m ∈ ms ∧ m.id ≠ mid) := by
  refine ⟨by simp [updateMessage], ?_, ?_, List.filter_sublist ms, ?_⟩
  · intro k m hk hne
    rw [updateMessage, List.getElem?_map, hk]
    simp [hne]
  · intro k m hk heq
    rw [updateMessage, List.getElem?_map, hk]
    simp [heq]
  · intro m
    simp [removeMessage, List.mem_filter, bne_iff_ne]

/-- Witness for C10 at a concrete two-message list: position 1 (different
id) is untouched and position 0 (matching id) is patched. -/
theorem c10_update_remove_frame_witness :
    (updateMessage [sampleUser, sampleAssistant] "1" samplePatch)[1]? = some sampleAssistant ∧
    (updateMessage [sampleUser, sampleAssistant] "1" samplePatch)[0]? =
      some (applyPatch sampleUser samplePatch) := by
  exact ⟨(c10_update_remove_frame [sampleUser, sampleAssistant] "1" samplePatch).2.1 1
      sampleAssistant (by decide) (by decide),
    (c10_update_remove_frame [sampleUser, sampleAssistant] "1" samplePatch).2.2.1 0
      sampleUser (by decide) (by decide)⟩

/-- C2 counterexample: the streaming `POST /ask` request goes through
`fetch`, not through the axios instance, so a 401 response there does not
clear the stored bearer token and does not navigate to the login screen:
the client state is returned unchanged, the error is merely thrown.  This
contradicts the claim that every authenticated request (including the
streaming `/ask` request) clears the token and forces navigation on 401. -/
theorem c2_counterexample_ask_401_keeps_token :
    (chatAskQuestion sampleClientState sample401Response).1 = sampleClientState ∧
    (chatAskQuestion sampleClientState sample401Response).2 = Except.error "Unauthorized" := by
  constructor <;> rfl

/-- C2 amended: a 401 on a request made through the axios instance clears
the in-memory token, the stored token and the default authorization header
and navigates to `/login` (any non-401 failure leaves the state alone),
while the streaming `POST /ask` request bypasses the interceptor: a non-ok
response there throws the error detail and leaves the client state
unchanged. -/
theorem c2_amended_interceptor_vs_fetch (s : ApiClientState) (status : Option Nat)
    (r : FetchResponse) :
    (status = some 401 → interceptOnError s status = ⟨none, none, none, "/login"⟩) ∧
    (status ≠ some 401 → interceptOnError s status = s) ∧
    (r.ok = false → (chatAskQuestion s r).1 = s ∧
      (chatAskQuestion s r).2 = Except.error (jsOr r.errorDetail "Failed to ask question")) := by
  refine ⟨?_, ?_, ?_⟩
  · intro h
    subst h
    rfl
  · intro h
    simp [interceptOnError, beq_eq_false_iff_ne.mpr h]
  · intro h
    constructor <;> simp [chatAskQuestion, h]

/-- Witness for the amended C2 at concrete inputs: the interceptor logs the
client out on a 401, and the `fetch` path leaves the same state alone. -/
theorem c2_amended_interceptor_vs_fetch_witness :
    interceptOnError sampleClientState (some 401) = ⟨none, none, none, "/login"⟩ ∧
    (chatAskQuestion sampleClientState sample401Response).1 = sampleClientState := by
  exact ⟨(c2_amended_interceptor_vs_fetch sampleClientState (some 401) sample401Response).1 rfl,
    ((c2_amended_interceptor_vs_fetch sampleClientState (some 401) sample401Response).2.2
      (by decide)).1⟩

/-- C5: processing a `complete` event overwrites the assistant message's
content with the event's final answer and its citation list with the
event's final citations, whatever token text or citations had accumulated
in the loop state before it. -/
theorem c5_complete_supersedes (s : LoopState) (answer : String)
    (citations : List Citation) :
    (runAskLoop s [StreamEvent.complete answer citations]).msg.content = answer ∧
    (runAskLoop s [StreamEvent.complete answer citations]).msg.citations = some citations := by
  constructor <;> rfl

/-- C6 counterexample: for a whitespace-only question text, `askQuestion`
returns before appending anything or issuing any request, contradicting the
claim that it appends a user turn and a placeholder for every question
text. -/
theorem c6_counterexample_blank_question :
    (askQuestionStart " " [] [] "1" "2" "t0").1 = [] ∧
    (askQuestionStart " " [] [] "1" "2" "t0").2 = none := by
  constructor <;> rfl

/-- C6 amended: for every question whose trimmed text is non-empty,
`askQuestion` appends a user turn carrying the question text followed by a
placeholder assistant turn (empty content, loading true) at the end of the
list, and issues a request whose `doc_ids` is the current selection when it
is non-empty and absent otherwise, with `k = 6`. -/
theorem c6_amended_ask_appends (question : String) (selectedDocs : List String)
    (messages : List ChatMessage) (uid aid now : String)
    (h : jsTrim question ≠ "") :
    (askQuestionStart question selectedDocs messages uid aid now).1 =
      messages ++ [⟨uid, Role.user, question, none, now, none⟩, placeholderAssistant aid now] ∧
    (placeholderAssistant aid now).content = "" ∧
    (placeholderAssistant aid now).loading = some true ∧
    (selectedDocs ≠ [] → (askQuestionStart question selectedDocs messages uid aid now).2 =
      some ⟨question, some selectedDocs, some 6⟩) ∧
    (selectedDocs = [] → (askQuestionStart question selectedDocs messages uid aid now).2 =
      some ⟨question, none, some 6⟩) := by
  have hb : (jsTrim question == "") = false := beq_eq_false_iff_ne.mpr h
  refine ⟨?_, rfl, rfl, ?_, ?_⟩
  · simp [askQuestionStart, hb, addMessage]
  · intro hd
    have : 0 < selectedDocs.length := List.length_pos.mpr hd
    simp [askQuestionStart, hb, this]
  · intro hd
    subst hd
    simp [askQuestionStart, hb]

/-- C8: for every chunked input stream and every decoder, the parser yields
exactly the successful decodings of the complete (newline-terminated) lines
of the concatenated stream that begin with `data: ` — each such line minus
its 6-character marker fed to the decoder — in stream arrival order.  A
line whose payload fails to decode (decoder returns `none`) is skipped
without ending the stream or affecting any other line's event, and lines
without the marker yield nothing, exactly the `filterMap` of the per-line
decoder over the complete lines. -/
theorem c8_parse_yields_decoded_lines {α : Type} (J : List Char → Option α)
    (chunks : List (List Char)) :
    parseStreamingResponse J chunks =
      (completeLines chunks.flatten).filterMap (decodeLine J) := by
  rw [parseStreamingResponse, processStream_eq J chunks [] (by simp), completeLines]
  simp

/-- Witness for the amended C6 at a concrete question and selection. -/
theorem c6_amended_ask_appends_witness :
    (askQuestionStart "what is RAG?" ["d1"] [] "1" "2" "t0").1 =
      [⟨"1", Role.user, "what is RAG?", none, "t0", none⟩, placeholderAssistant "2" "t0"] ∧
    (askQuestionStart "what is RAG?" ["d1"] [] "1" "2" "t0").2 =
      some ⟨"what is RAG?", some ["d1"], some 6⟩ := by
  exact ⟨(c6_amended_ask_appends "what is RAG?" ["d1"] [] "1" "2" "t0" (by decide)).1,
    (c6_amended_ask_appends "what is RAG?" ["d1"] [] "1" "2" "t0" (by decide)).2.2.2.1
      (by decide)⟩

end PdfQA
